import Mathlib

/-!
Shallow embedding of the Advent of Code 2023 day 05 range-remapping engine
("If You Give A Seed A Fertilizer"), from
`src/calendar/2023/05_IfYouGiveASeedAFertilizer/main.rs`.

Modelling conventions:
* `u64` is modelled as `Nat`.  Every subtraction the Rust code performs is
  guarded so that `Nat` truncated subtraction agrees with the Rust value, and
  the modelled computations stay within 64 bits on the puzzle's domain.
* `HashSet<u64>` is modelled as `Finset Nat` (insertion-collected results are
  an image), `Vec<_>` as `List _`, and `HashMap<String, AlmanacMap>` as an
  association list queried with `List.lookup`.
* The `while let` chain walks of `solve_problem_1` / `solve_problem_2` are
  modelled with an explicit fuel parameter (`chain_elems`, `chain_ranges`);
  termination of the real loop corresponds to the fuelled walk stabilising
  once the current label has no entry in the stage graph.
-/

/-- Mirrors Rust `struct AlmanacRange { start: u64, length: u64 }`. -/
structure AlmanacRange where
  start : Nat
  length : Nat
deriving DecidableEq

/-- Mirrors Rust `struct AlmanacRangeMapping { from_start: u64, to_start: u64, length: u64 }`. -/
structure AlmanacRangeMapping where
  from_start : Nat
  to_start : Nat
  length : Nat
deriving DecidableEq

/-- Mirrors Rust `struct AlmanacMap { to: String, range_mappings: Vec<AlmanacRangeMapping> }`. -/
structure AlmanacMap where
  to_label : String
  range_mappings : List AlmanacRangeMapping
deriving DecidableEq

/-- Mirrors Rust `struct Almanac`. -/
structure Almanac where
  seeds : Finset Nat
  seeds_as_ranges : List AlmanacRange
  maps_by_source : List (String × AlmanacMap)

/-- Mirrors `fn apply_map_to_elements`: each element is matched against the
first rule whose (as written in the code, inclusive-upper-bound) test
`range.from_start <= element && element <= range.from_start + range.length`
succeeds, translated if matched, else inserted unchanged. -/
def apply_map_to_elements (source_elements : Finset Nat) (map : AlmanacMap) : Finset Nat :=
  source_elements.image fun element =>
    match map.range_mappings.find? (fun range =>
        decide (range.from_start ≤ element ∧ element ≤ range.from_start + range.length)) with
    | some matching_range => element - matching_range.from_start + matching_range.to_start
    | none => element

/-- Mirrors `fn apply_range_mapping`.  `overlap_start = max(start, from_start)`
and `overlap_end = min(start + length, from_start + mapping.length)` are
inlined. -/
def apply_range_mapping (source_range : AlmanacRange) (mapping : AlmanacRangeMapping) :
    Option AlmanacRange :=
  if source_range.start ≥ mapping.from_start + mapping.length
      ∨ source_range.start + source_range.length ≤ mapping.from_start then
    none
  else
    some { start := max source_range.start mapping.from_start
                      - mapping.from_start + mapping.to_start,
           length := min (source_range.start + source_range.length)
                         (mapping.from_start + mapping.length)
                     - max source_range.start mapping.from_start }

/-- Mirrors `fn subtract_range`.  `overlap_start`/`overlap_end` are inlined;
`overlap_start > source_range.start` is written `source_range.start < max ...`. -/
def subtract_range (source_range subtracting_range : AlmanacRange) :
    Option AlmanacRange × Option AlmanacRange :=
  (if source_range.start < max source_range.start subtracting_range.start then
      some { start := source_range.start,
             length := max source_range.start subtracting_range.start - source_range.start }
    else none,
   if min (source_range.start + source_range.length)
        (subtracting_range.start + subtracting_range.length)
      < source_range.start + source_range.length then
      some { start := min (source_range.start + source_range.length)
                          (subtracting_range.start + subtracting_range.length),
             length := source_range.start + source_range.length
                       - min (source_range.start + source_range.length)
                             (subtracting_range.start + subtracting_range.length) }
    else none)

/-- One iteration of the outer rule loop of `fn apply_map_to_ranges`: runs one
`range_mapping` over the currently unmapped ranges, returning the newly mapped
ranges (first component, in input order) and `unmapped_for_this_mapping`
(second component: remainders first left then right, and untouched ranges). -/
def apply_mapping_to_unmapped (range_mapping : AlmanacRangeMapping) :
    List AlmanacRange → List AlmanacRange × List AlmanacRange
  | [] => ([], [])
  | range :: rest =>
    let step := apply_mapping_to_unmapped range_mapping rest
    match apply_range_mapping range range_mapping with
    | some mapped =>
        let remainders := subtract_range range
          { start := range_mapping.from_start, length := range_mapping.length }
        (mapped :: step.1, (remainders.1.toList ++ remainders.2.toList) ++ step.2)
    | none => (step.1, range :: step.2)

/-- The full rule loop of `fn apply_map_to_ranges`: accumulated `result` of
mapped ranges across all rules (first component) and the final
`unmapped_ranges` (second component). -/
def apply_mappings (range_mappings : List AlmanacRangeMapping)
    (unmapped_ranges : List AlmanacRange) : List AlmanacRange × List AlmanacRange :=
  match range_mappings with
  | [] => ([], unmapped_ranges)
  | range_mapping :: rest =>
    let step := apply_mapping_to_unmapped range_mapping unmapped_ranges
    let next := apply_mappings rest step.2
    (step.1 ++ next.1, next.2)

/-- Mirrors `fn apply_map_to_ranges`: the mapped results followed by
`result.extend(unmapped_ranges)`. -/
def apply_map_to_ranges (source_ranges : List AlmanacRange) (map : AlmanacMap) :
    List AlmanacRange :=
  (apply_mappings map.range_mappings source_ranges).1
    ++ (apply_mappings map.range_mappings source_ranges).2

/-- Mirrors `almanac.maps_by_source.get(&label)` on the association-list model. -/
def lookup_map (maps_by_source : List (String × AlmanacMap)) (label : String) :
    Option AlmanacMap :=
  maps_by_source.lookup label

/-- The label reached after `fuel` iterations of the `while let` chain walk
starting at `label` (the label stops changing once it has no map entry). -/
def iter_label (maps_by_source : List (String × AlmanacMap)) : Nat → String → String
  | 0, label => label
  | fuel + 1, label =>
    match lookup_map maps_by_source label with
    | none => label
    | some map => iter_label maps_by_source fuel map.to_label

/-- Fuelled model of the `while let` loop of `fn solve_problem_1`. -/
def chain_elems (maps_by_source : List (String × AlmanacMap)) :
    Nat → String → Finset Nat → Finset Nat
  | 0, _, items => items
  | fuel + 1, label, items =>
    match lookup_map maps_by_source label with
    | none => items
    | some map => chain_elems maps_by_source fuel map.to_label (apply_map_to_elements items map)

/-- Fuelled model of the `while let` loop of `fn solve_problem_2`. -/
def chain_ranges (maps_by_source : List (String × AlmanacMap)) :
    Nat → String → List AlmanacRange → List AlmanacRange
  | 0, _, item_ranges => item_ranges
  | fuel + 1, label, item_ranges =>
    match lookup_map maps_by_source label with
    | none => item_ranges
    | some map => chain_ranges maps_by_source fuel map.to_label (apply_map_to_ranges item_ranges map)

/-- Mirrors `fn solve_problem_1` (fuelled): `items.iter().min().copied()`.
`Finset.min` lands in `WithTop Nat`, which is definitionally `Option Nat`
with Rust `None` modelled by `⊤` (the minimum of the empty set). -/
def solve_problem_1 (fuel : Nat) (almanac : Almanac) : WithTop Nat :=
  (chain_elems almanac.maps_by_source fuel "seed" almanac.seeds).min

/-- Mirrors `fn solve_problem_2` (fuelled):
`item_ranges.iter().map(|range| range.start).min()`. -/
def solve_problem_2 (fuel : Nat) (almanac : Almanac) : Option Nat :=
  ((chain_ranges almanac.maps_by_source fuel "seed" almanac.seeds_as_ranges).map
    AlmanacRange.start).min?

/-- Half-open span `[start, start + length)` of an interval, as a finite set. -/
def range_span (range : AlmanacRange) : Finset Nat :=
  Finset.Ico range.start (range.start + range.length)

/-- Half-open source span `[from_start, from_start + length)` of a rule. -/
def source_span (mapping : AlmanacRangeMapping) : Finset Nat :=
  Finset.Ico mapping.from_start (mapping.from_start + mapping.length)

/-- Span of an optional interval (`none` covers nothing). -/
def opt_span (o : Option AlmanacRange) : Finset Nat :=
  match o with
  | some range => range_span range
  | none => ∅

/-- Translates a mapped interval back to source coordinates through a rule. -/
def back_translate (mapped : AlmanacRange) (mapping : AlmanacRangeMapping) : AlmanacRange :=
  { start := mapped.start - mapping.to_start + mapping.from_start, length := mapped.length }

/-- Total length of a collection of intervals. -/
def sum_lengths (ranges : List AlmanacRange) : Nat :=
  (ranges.map AlmanacRange.length).sum

/-- A label at which the chain walk stops: no entry in the stage graph. -/
def Terminal (maps_by_source : List (String × AlmanacMap)) (label : String) : Prop :=
  lookup_map maps_by_source label = none

/-- Acyclicity of the stage graph along the walk from `root`: within the first
`length + 1` steps, the walk never revisits a non-terminal label.  A cyclic
chain would revisit some label within that bound, so this captures exactly
"the graph followed from the root is acyclic". -/
def AcyclicFrom (maps_by_source : List (String × AlmanacMap)) (root : String) : Prop :=
  ∀ j, j ≤ maps_by_source.length → ∀ i, i < j →
    iter_label maps_by_source i root = iter_label maps_by_source j root →
    Terminal maps_by_source (iter_label maps_by_source i root)

instance (maps_by_source : List (String × AlmanacMap)) (label : String) :
    Decidable (Terminal maps_by_source label) :=
  inferInstanceAs (Decidable (lookup_map maps_by_source label = none))

instance (maps_by_source : List (String × AlmanacMap)) (root : String) :
    Decidable (AcyclicFrom maps_by_source root) :=
  inferInstanceAs (Decidable (∀ j, j ≤ maps_by_source.length → ∀ i, i < j →
    iter_label maps_by_source i root = iter_label maps_by_source j root →
    Terminal maps_by_source (iter_label maps_by_source i root)))

/-- A one-stage graph used to instantiate the termination theorem. -/
def sample_graph : List (String × AlmanacMap) := [("seed", ⟨"soil", []⟩)]

/-- A small almanac with an empty stage graph, used to instantiate the
minimum-extraction theorem. -/
def sample_almanac : Almanac := ⟨{3, 7}, [⟨5, 2⟩], []⟩

lemma range_span_mem (range : AlmanacRange) (x : Nat) :
    x ∈ range_span range ↔ range.start ≤ x ∧ x < range.start + range.length := by
  simp [range_span, Finset.mem_Ico]

lemma source_span_mem (mapping : AlmanacRangeMapping) (x : Nat) :
    x ∈ source_span mapping ↔
      mapping.from_start ≤ x ∧ x < mapping.from_start + mapping.length := by
  simp [source_span, Finset.mem_Ico]

/-- C2: for positive-length interval and rule, `apply_range_mapping` returns
`none` exactly when the half-open spans are disjoint; otherwise the returned
interval's length is the size of the span overlap and its start is the
overlap start offset into destination coordinates. -/
theorem apply_range_mapping_overlap_spec (i : AlmanacRange) (r : AlmanacRangeMapping)
    (hi : 0 < i.length) (hr : 0 < r.length) :
    (apply_range_mapping i r = none ↔ range_span i ∩ source_span r = ∅) ∧
    (∀ m, apply_range_mapping i r = some m →
      m.length = (range_span i ∩ source_span r).card ∧
      m.start = max i.start r.from_start - r.from_start + r.to_start) := by
  unfold apply_range_mapping range_span source_span
  rw [Finset.Ico_inter_Ico]
  split_ifs with hd
  · constructor
    · constructor
      · intro _
        apply Finset.Ico_eq_empty
        omega
      · intro _
        rfl
    · intro m hm
      cases hm
  · constructor
    · constructor
      · intro hm
        cases hm
      · intro hempty
        exfalso
        have h2 := Finset.Ico_eq_empty_iff.mp hempty
        omega
    · intro m hm
      injection hm with hm
      subst hm
      refine ⟨?_, rfl⟩
      rw [Nat.card_Ico]

lemma subtract_range_fst (s c : AlmanacRange) :
    (subtract_range s c).1 =
      if s.start < max s.start c.start then
        some { start := s.start, length := max s.start c.start - s.start }
      else none := rfl

lemma subtract_range_snd (s c : AlmanacRange) :
    (subtract_range s c).2 =
      if min (s.start + s.length) (c.start + c.length) < s.start + s.length then
        some { start := min (s.start + s.length) (c.start + c.length),
               length := s.start + s.length - min (s.start + s.length) (c.start + c.length) }
      else none := rfl

/-- C3: when `subtracting_range` overlaps `source_range`, the left result
covers exactly the part of the source strictly before the subtracted start,
the right result exactly the part strictly after the subtracted end, and a
side is `none` exactly when no remainder exists there (so full containment
gives two `none`s and an edge touch gives exactly one). -/
theorem subtract_range_remainder_spec (s c : AlmanacRange)
    (hov : (range_span s ∩ range_span c).Nonempty) :
    opt_span (subtract_range s c).1 = (range_span s).filter (fun x => x < c.start) ∧
    opt_span (subtract_range s c).2 = (range_span s).filter (fun x => c.start + c.length ≤ x) ∧
    ((subtract_range s c).1 = none ↔ c.start ≤ s.start) ∧
    ((subtract_range s c).2 = none ↔ s.start + s.length ≤ c.start + c.length) := by
  obtain ⟨x, hx⟩ := hov
  rw [Finset.mem_inter, range_span_mem, range_span_mem] at hx
  rw [subtract_range_fst, subtract_range_snd]
  refine ⟨?_, ?_, ?_, ?_⟩
  · split_ifs with h1
    · ext y
      simp only [opt_span, range_span, Finset.mem_Ico, Finset.mem_filter]
      omega
    · ext y
      simp only [opt_span, range_span, Finset.not_mem_empty, Finset.mem_Ico,
        Finset.mem_filter, false_iff, not_and, not_lt]
      omega
  · split_ifs with h2
    · ext y
      simp only [opt_span, range_span, Finset.mem_Ico, Finset.mem_filter]
      omega
    · ext y
      simp only [opt_span, range_span, Finset.not_mem_empty, Finset.mem_Ico,
        Finset.mem_filter, false_iff, not_and, not_le]
      omega
  · split_ifs with h1
    · constructor
      · intro h
        cases h
      · intro hc
        exfalso
        omega
    · constructor
      · intro _
        omega
      · intro _
        rfl
  · split_ifs with h2
    · constructor
      · intro h
        cases h
      · intro hc
        exfalso
        omega
    · constructor
      · intro _
        omega
      · intro _
        rfl

lemma subtract_rule_fst (i : AlmanacRange) (r : AlmanacRangeMapping) :
    (subtract_range i ⟨r.from_start, r.length⟩).1 =
      if i.start < max i.start r.from_start then
        some { start := i.start, length := max i.start r.from_start - i.start }
      else none := rfl

lemma subtract_rule_snd (i : AlmanacRange) (r : AlmanacRangeMapping) :
    (subtract_range i ⟨r.from_start, r.length⟩).2 =
      if min (i.start + i.length) (r.from_start + r.length) < i.start + i.length then
        some { start := min (i.start + i.length) (r.from_start + r.length),
               length := i.start + i.length
                         - min (i.start + i.length) (r.from_start + r.length) }
      else none := rfl

lemma mem_opt_span_subtract_rule_fst (i : AlmanacRange) (r : AlmanacRangeMapping) (y : Nat) :
    y ∈ opt_span (subtract_range i ⟨r.from_start, r.length⟩).1 ↔
      i.start ≤ y ∧ y < max i.start r.from_start := by
  rw [subtract_rule_fst]
  split_ifs with h
  · simp only [opt_span, range_span, Finset.mem_Ico]
    omega
  · simp only [opt_span, Finset.not_mem_empty, false_iff, not_and, not_lt]
    omega

lemma mem_opt_span_subtract_rule_snd (i : AlmanacRange) (r : AlmanacRangeMapping) (y : Nat) :
    y ∈ opt_span (subtract_range i ⟨r.from_start, r.length⟩).2 ↔
      min (i.start + i.length) (r.from_start + r.length) ≤ y ∧ y < i.start + i.length := by
  rw [subtract_rule_snd]
  split_ifs with h
  · simp only [opt_span, range_span, Finset.mem_Ico]
    omega
  · simp only [opt_span, Finset.not_mem_empty, false_iff, not_and, not_lt]
    omega

lemma mem_range_span_back_translate (i : AlmanacRange) (r : AlmanacRangeMapping)
    (m : AlmanacRange) (h : apply_range_mapping i r = some m) (y : Nat) :
    y ∈ range_span (back_translate m r) ↔
      max i.start r.from_start ≤ y ∧
        y < min (i.start + i.length) (r.from_start + r.length) := by
  unfold apply_range_mapping at h
  split_ifs at h with hd
  injection h with h
  subst h
  simp only [back_translate, range_span, Finset.mem_Ico]
  omega

/-- C4: when interval `i` and rule `r` have a non-empty span overlap, the
mapped overlap translated back to source coordinates together with the two
remainders obtained by subtracting the rule's source span partitions `i`'s
original half-open span: the union is exactly `i`'s span and the three parts
are pairwise disjoint. -/
theorem mapping_partitions_interval (i : AlmanacRange) (r : AlmanacRangeMapping)
    (hov : (range_span i ∩ source_span r).Nonempty) :
    ∃ m, apply_range_mapping i r = some m ∧
      range_span (back_translate m r)
          ∪ opt_span (subtract_range i ⟨r.from_start, r.length⟩).1
          ∪ opt_span (subtract_range i ⟨r.from_start, r.length⟩).2 = range_span i ∧
      Disjoint (range_span (back_translate m r))
        (opt_span (subtract_range i ⟨r.from_start, r.length⟩).1) ∧
      Disjoint (range_span (back_translate m r))
        (opt_span (subtract_range i ⟨r.from_start, r.length⟩).2) ∧
      Disjoint (opt_span (subtract_range i ⟨r.from_start, r.length⟩).1)
        (opt_span (subtract_range i ⟨r.from_start, r.length⟩).2) := by
  obtain ⟨x, hx⟩ := hov
  rw [Finset.mem_inter, range_span_mem, source_span_mem] at hx
  have hnd : ¬(i.start ≥ r.from_start + r.length
      ∨ i.start + i.length ≤ r.from_start) := by omega
  have hm : apply_range_mapping i r =
      some { start := max i.start r.from_start - r.from_start + r.to_start,
             length := min (i.start + i.length) (r.from_start + r.length)
                       - max i.start r.from_start } := by
    unfold apply_range_mapping
    rw [if_neg hnd]
  refine ⟨_, hm, ?_, ?_, ?_, ?_⟩
  · ext y
    rw [Finset.mem_union, Finset.mem_union, mem_range_span_back_translate i r _ hm,
      mem_opt_span_subtract_rule_fst, mem_opt_span_subtract_rule_snd, range_span_mem]
    omega
  · rw [Finset.disjoint_left]
    intro y hy
    rw [mem_range_span_back_translate i r _ hm] at hy
    rw [mem_opt_span_subtract_rule_fst]
    omega
  · rw [Finset.disjoint_left]
    intro y hy
    rw [mem_range_span_back_translate i r _ hm] at hy
    rw [mem_opt_span_subtract_rule_snd]
    omega
  · rw [Finset.disjoint_left]
    intro y hy
    rw [mem_opt_span_subtract_rule_fst] at hy
    rw [mem_opt_span_subtract_rule_snd]
    omega

/-- C1 (code behaviour at the claim's concrete scenario): with the single rule
`{from_start := 98, to_start := 50, length := 2}`, scalar value 98 maps to 50
as the claim states, but value 100 — outside the half-open source span
`[98, 100)` — is mapped to 52 rather than returned unchanged, because the
match test in `apply_map_to_elements` uses the inclusive bound
`element <= range.from_start + range.length`. -/
theorem apply_map_to_elements_inclusive_bound :
    apply_map_to_elements {98} ⟨"soil", [⟨98, 50, 2⟩]⟩ = {50} ∧
    apply_map_to_elements {100} ⟨"soil", [⟨98, 50, 2⟩]⟩ = {52} := by
  constructor <;> decide

/-- C10 (code behaviour at a disagreeing input): for the single rule
`{from_start := 10, to_start := 20, length := 5}` and the value 15, scalar
mode translates 15 to 25 (its matching test accepts `15 <= 10 + 5`), while
interval mode passes the singleton interval `[15, 16)` through unchanged
(it is disjoint from the half-open source span `[10, 15)`), so the two modes
cover different value sets on this singleton. -/
theorem scalar_interval_disagree_on_singleton :
    apply_map_to_elements {15} ⟨"soil", [⟨10, 20, 5⟩]⟩ = {25} ∧
    apply_map_to_ranges [⟨15, 1⟩] ⟨"soil", [⟨10, 20, 5⟩]⟩ = [⟨15, 1⟩] := by
  constructor <;> decide

lemma span_disjoint_apply_none (i : AlmanacRange) (r : AlmanacRangeMapping)
    (hi : 0 < i.length) (hr : 0 < r.length)
    (h : range_span i ∩ source_span r = ∅) : apply_range_mapping i r = none := by
  unfold range_span source_span at h
  rw [Finset.Ico_inter_Ico] at h
  have h2 := Finset.Ico_eq_empty_iff.mp h
  have hc : i.start ≥ r.from_start + r.length ∨ i.start + i.length ≤ r.from_start := by
    omega
  unfold apply_range_mapping
  rw [if_pos hc]

lemma mem_unmapped_of_apply_none (range_mapping : AlmanacRangeMapping)
    (lst : List AlmanacRange) (i : AlmanacRange) :
    i ∈ lst → apply_range_mapping i range_mapping = none →
      i ∈ (apply_mapping_to_unmapped range_mapping lst).2 := by
  induction lst with
  | nil =>
    intro hi _
    cases hi
  | cons a rest ih =>
    intro hi h
    rw [List.mem_cons] at hi
    simp only [apply_mapping_to_unmapped]
    rcases hi with rfl | hmem
    · rw [h]
      exact List.mem_cons_self _ _
    · cases hcase : apply_range_mapping a range_mapping with
      | some mapped =>
        exact List.mem_append_right _ (ih hmem h)
      | none =>
        exact List.mem_cons_of_mem _ (ih hmem h)

lemma mem_apply_mappings_unmapped (range_mappings : List AlmanacRangeMapping)
    (i : AlmanacRange) :
    ∀ unmapped, (∀ r ∈ range_mappings, apply_range_mapping i r = none) →
      i ∈ unmapped → i ∈ (apply_mappings range_mappings unmapped).2 := by
  induction range_mappings with
  | nil =>
    intro unmapped _ hi
    simpa [apply_mappings] using hi
  | cons r rest ih =>
    intro unmapped h hi
    simp only [apply_mappings]
    exact ih _ (fun r' hr' => h r' (List.mem_cons_of_mem _ hr'))
      (mem_unmapped_of_apply_none r unmapped i hi (h r (List.mem_cons_self _ _)))

/-- C5: an input interval whose span overlaps no rule's source span appears
unchanged in the output of `apply_map_to_ranges`, and, more generally, every
interval still unmapped after all rules have run is passed through unchanged
into the result. -/
theorem unmapped_intervals_pass_through (map : AlmanacMap) (ranges : List AlmanacRange)
    (hrules : ∀ r ∈ map.range_mappings, 0 < r.length) :
    (∀ i ∈ ranges, 0 < i.length →
      (∀ r ∈ map.range_mappings, range_span i ∩ source_span r = ∅) →
      i ∈ apply_map_to_ranges ranges map) ∧
    (∀ u ∈ (apply_mappings map.range_mappings ranges).2,
      u ∈ apply_map_to_ranges ranges map) := by
  constructor
  · intro i hi hlen hdisj
    unfold apply_map_to_ranges
    exact List.mem_append_right _
      (mem_apply_mappings_unmapped _ i ranges
        (fun r hr => span_disjoint_apply_none i r hlen (hrules r hr) (hdisj r hr)) hi)
  · intro u hu
    unfold apply_map_to_ranges
    exact List.mem_append_right _ hu

lemma sum_lengths_nil : sum_lengths [] = 0 := rfl

lemma sum_lengths_cons (a : AlmanacRange) (l : List AlmanacRange) :
    sum_lengths (a :: l) = a.length + sum_lengths l := rfl

lemma sum_lengths_append (l₁ l₂ : List AlmanacRange) :
    sum_lengths (l₁ ++ l₂) = sum_lengths l₁ + sum_lengths l₂ := by
  simp [sum_lengths]

lemma apply_range_mapping_split_length (i : AlmanacRange) (r : AlmanacRangeMapping)
    (m : AlmanacRange) (h : apply_range_mapping i r = some m) :
    m.length
      + sum_lengths ((subtract_range i ⟨r.from_start, r.length⟩).1.toList
          ++ (subtract_range i ⟨r.from_start, r.length⟩).2.toList) = i.length := by
  unfold apply_range_mapping at h
  split_ifs at h with hd
  injection h with h
  subst h
  rw [subtract_rule_fst, subtract_rule_snd]
  split_ifs with h1 h2 h2 <;>
    simp only [Option.toList_some, Option.toList_none, List.cons_append, List.nil_append,
      List.append_nil, sum_lengths_cons, sum_lengths_nil] <;>
    omega

lemma apply_mapping_to_unmapped_sum (range_mapping : AlmanacRangeMapping)
    (lst : List AlmanacRange) :
    sum_lengths (apply_mapping_to_unmapped range_mapping lst).1
      + sum_lengths (apply_mapping_to_unmapped range_mapping lst).2 = sum_lengths lst := by
  induction lst with
  | nil => rfl
  | cons a rest ih =>
    simp only [apply_mapping_to_unmapped]
    cases hcase : apply_range_mapping a range_mapping with
    | some mapped =>
      have hsplit := apply_range_mapping_split_length a range_mapping mapped hcase
      rw [sum_lengths_append] at hsplit
      simp only [sum_lengths_cons, sum_lengths_append]
      omega
    | none =>
      simp only [sum_lengths_cons]
      omega

lemma apply_mappings_sum (range_mappings : List AlmanacRangeMapping)
    (unmapped : List AlmanacRange) :
    sum_lengths (apply_mappings range_mappings unmapped).1
      + sum_lengths (apply_mappings range_mappings unmapped).2 = sum_lengths unmapped := by
  induction range_mappings generalizing unmapped with
  | nil => simp [apply_mappings, sum_lengths]
  | cons r rest ih =>
    simp only [apply_mappings, sum_lengths_append]
    have h1 := apply_mapping_to_unmapped_sum r unmapped
    have h2 := ih (apply_mapping_to_unmapped r unmapped).2
    omega

lemma apply_map_to_ranges_sum (ranges : List AlmanacRange) (map : AlmanacMap) :
    sum_lengths (apply_map_to_ranges ranges map) = sum_lengths ranges := by
  unfold apply_map_to_ranges
  rw [sum_lengths_append]
  exact apply_mappings_sum _ _

lemma chain_ranges_sum (g : List (String × AlmanacMap)) (fuel : Nat) (label : String)
    (ranges : List AlmanacRange) :
    sum_lengths (chain_ranges g fuel label ranges) = sum_lengths ranges := by
  induction fuel generalizing label ranges with
  | zero => rfl
  | succ n ih =>
    simp only [chain_ranges]
    cases lookup_map g label with
    | none => rfl
    | some map => rw [ih, apply_map_to_ranges_sum]

/-- C6: with positive-length rules and input intervals, `apply_map_to_ranges`
conserves the total interval length exactly, and consequently the fuelled
chain walk never produces a total length exceeding the initial one. -/
theorem apply_map_to_ranges_conserves_length (map : AlmanacMap) (ranges : List AlmanacRange)
    (hrules : ∀ r ∈ map.range_mappings, 0 < r.length)
    (hranges : ∀ i ∈ ranges, 0 < i.length) :
    sum_lengths (apply_map_to_ranges ranges map) = sum_lengths ranges ∧
    ∀ g fuel label, sum_lengths (chain_ranges g fuel label ranges) ≤ sum_lengths ranges :=
  ⟨apply_map_to_ranges_sum ranges map,
   fun g fuel label => le_of_eq (chain_ranges_sum g fuel label ranges)⟩

lemma apply_range_mapping_pos (i : AlmanacRange) (r : AlmanacRangeMapping)
    (hi : 0 < i.length) (hr : 0 < r.length) (m : AlmanacRange)
    (h : apply_range_mapping i r = some m) : 0 < m.length := by
  unfold apply_range_mapping at h
  split_ifs at h with hd
  injection h with h
  subst h
  show 0 < min (i.start + i.length) (r.from_start + r.length) - max i.start r.from_start
  omega

lemma subtract_range_fst_pos (s c a : AlmanacRange)
    (h : (subtract_range s c).1 = some a) : 0 < a.length := by
  rw [subtract_range_fst] at h
  split_ifs at h with h1
  injection h with h
  subst h
  show 0 < max s.start c.start - s.start
  omega

lemma subtract_range_snd_pos (s c a : AlmanacRange)
    (h : (subtract_range s c).2 = some a) : 0 < a.length := by
  rw [subtract_range_snd] at h
  split_ifs at h with h2
  injection h with h
  subst h
  show 0 < s.start + s.length - min (s.start + s.length) (c.start + c.length)
  omega

lemma apply_mapping_to_unmapped_pos (range_mapping : AlmanacRangeMapping)
    (hr : 0 < range_mapping.length) :
    ∀ lst, (∀ i ∈ lst, 0 < i.length) →
      (∀ o ∈ (apply_mapping_to_unmapped range_mapping lst).1, 0 < o.length) ∧
      (∀ o ∈ (apply_mapping_to_unmapped range_mapping lst).2, 0 < o.length) := by
  intro lst
  induction lst with
  | nil =>
    intro _
    constructor
    · intro o ho
      cases ho
    · intro o ho
      cases ho
  | cons a rest ih =>
    intro hlst
    obtain ⟨ih1, ih2⟩ := ih (fun i hi => hlst i (List.mem_cons_of_mem _ hi))
    have ha := hlst a (List.mem_cons_self _ _)
    simp only [apply_mapping_to_unmapped]
    cases hcase : apply_range_mapping a range_mapping with
    | some mapped =>
      constructor
      · intro o ho
        rcases List.mem_cons.mp ho with rfl | ho
        · exact apply_range_mapping_pos a range_mapping ha hr o hcase
        · exact ih1 o ho
      · intro o ho
        rcases List.mem_append.mp ho with ho | ho
        · rcases List.mem_append.mp ho with ho | ho
          · rw [Option.mem_toList, Option.mem_def] at ho
            exact subtract_range_fst_pos a _ o ho
          · rw [Option.mem_toList, Option.mem_def] at ho
            exact subtract_range_snd_pos a _ o ho
        · exact ih2 o ho
    | none =>
      constructor
      · exact ih1
      · intro o ho
        rcases List.mem_cons.mp ho with rfl | ho
        · exact ha
        · exact ih2 o ho

lemma apply_mappings_pos (range_mappings : List AlmanacRangeMapping) :
    (∀ r ∈ range_mappings, 0 < r.length) →
    ∀ unmapped, (∀ i ∈ unmapped, 0 < i.length) →
      (∀ o ∈ (apply_mappings range_mappings unmapped).1, 0 < o.length) ∧
      (∀ o ∈ (apply_mappings range_mappings unmapped).2, 0 < o.length) := by
  induction range_mappings with
  | nil =>
    intro _ unmapped hu
    constructor
    · intro o ho
      cases ho
    · intro o ho
      exact hu o ho
  | cons r rest ih =>
    intro hrs unmapped hu
    obtain ⟨h1, h2⟩ := apply_mapping_to_unmapped_pos r (hrs r (List.mem_cons_self _ _)) unmapped hu
    obtain ⟨h3, h4⟩ := ih (fun r' hr' => hrs r' (List.mem_cons_of_mem _ hr'))
      (apply_mapping_to_unmapped r unmapped).2 h2
    simp only [apply_mappings]
    constructor
    · intro o ho
      rcases List.mem_append.mp ho with ho | ho
      · exact h1 o ho
      · exact h3 o ho
    · exact h4

/-- C8: under the precondition that every input interval and every rule has
length at least 1, every interval produced by `apply_range_mapping`,
`subtract_range` and `apply_map_to_ranges` has length at least 1 — no
zero-length interval is ever constructed. -/
theorem no_zero_length_interval_constructed (map : AlmanacMap) (ranges : List AlmanacRange)
    (hrules : ∀ r ∈ map.range_mappings, 0 < r.length)
    (hranges : ∀ i ∈ ranges, 0 < i.length) :
    (∀ i r, 0 < AlmanacRange.length i → 0 < AlmanacRangeMapping.length r →
      ∀ m, apply_range_mapping i r = some m → 0 < m.length) ∧
    (∀ s c a, (subtract_range s c).1 = some a → 0 < a.length) ∧
    (∀ s c a, (subtract_range s c).2 = some a → 0 < a.length) ∧
    (∀ o ∈ apply_map_to_ranges ranges map, 0 < o.length) := by
  refine ⟨fun i r hi hr m hm => apply_range_mapping_pos i r hi hr m hm,
    fun s c a h => subtract_range_fst_pos s c a h,
    fun s c a h => subtract_range_snd_pos s c a h, ?_⟩
  obtain ⟨h1, h2⟩ := apply_mappings_pos map.range_mappings hrules ranges hranges
  intro o ho
  unfold apply_map_to_ranges at ho
  rcases List.mem_append.mp ho with ho | ho
  · exact h1 o ho
  · exact h2 o ho


lemma lookup_map_mem_keys (g : List (String × AlmanacMap)) (l : String) :
    lookup_map g l ≠ none → l ∈ g.map Prod.fst := by
  induction g with
  | nil =>
    intro h
    exact absurd rfl h
  | cons p rest ih =>
    intro h
    obtain ⟨k, v⟩ := p
    rw [lookup_map, List.lookup] at h
    rw [List.map_cons]
    cases hbeq : (l == k) with
    | true =>
      have : l = k := eq_of_beq hbeq
      subst this
      exact List.mem_cons_self _ _
    | false =>
      rw [hbeq] at h
      exact List.mem_cons_of_mem _ (ih h)

lemma chain_elems_of_terminal (g : List (String × AlmanacMap)) (label : String)
    (h : Terminal g label) (fuel : Nat) (items : Finset Nat) :
    chain_elems g fuel label items = items := by
  have h' : lookup_map g label = none := h
  cases fuel with
  | zero => rfl
  | succ n =>
    unfold chain_elems
    rw [h']

lemma chain_ranges_of_terminal (g : List (String × AlmanacMap)) (label : String)
    (h : Terminal g label) (fuel : Nat) (item_ranges : List AlmanacRange) :
    chain_ranges g fuel label item_ranges = item_ranges := by
  have h' : lookup_map g label = none := h
  cases fuel with
  | zero => rfl
  | succ n =>
    unfold chain_ranges
    rw [h']

lemma iter_label_succ_some (g : List (String × AlmanacMap)) (n : Nat) (label : String)
    (map : AlmanacMap) (hl : lookup_map g label = some map) :
    iter_label g (n + 1) label = iter_label g n map.to_label := by
  have h0 : iter_label g (n + 1) label =
      match lookup_map g label with
      | none => label
      | some map => iter_label g n map.to_label := rfl
  rw [h0, hl]

lemma chain_elems_stable (g : List (String × AlmanacMap)) :
    ∀ n label, Terminal g (iter_label g n label) →
      ∀ fuel, n ≤ fuel → ∀ items, chain_elems g fuel label items = chain_elems g n label items := by
  intro n
  induction n with
  | zero =>
    intro label h fuel _ items
    exact chain_elems_of_terminal g label h fuel items
  | succ n ih =>
    intro label h fuel hf items
    cases hl : lookup_map g label with
    | none =>
      have hterm : Terminal g label := hl
      rw [chain_elems_of_terminal g label hterm fuel items,
        chain_elems_of_terminal g label hterm (n + 1) items]
    | some map =>
      obtain ⟨fuel', rfl⟩ : ∃ k, fuel = k + 1 := ⟨fuel - 1, by omega⟩
      have hiter : Terminal g (iter_label g n map.to_label) := by
        rwa [iter_label_succ_some g n label map hl] at h
      show chain_elems g (fuel' + 1) label items = chain_elems g (n + 1) label items
      unfold chain_elems
      rw [hl]
      exact ih map.to_label hiter fuel' (by omega) _

lemma chain_ranges_stable (g : List (String × AlmanacMap)) :
    ∀ n label, Terminal g (iter_label g n label) →
      ∀ fuel, n ≤ fuel → ∀ item_ranges,
        chain_ranges g fuel label item_ranges = chain_ranges g n label item_ranges := by
  intro n
  induction n with
  | zero =>
    intro label h fuel _ item_ranges
    exact chain_ranges_of_terminal g label h fuel item_ranges
  | succ n ih =>
    intro label h fuel hf item_ranges
    cases hl : lookup_map g label with
    | none =>
      have hterm : Terminal g label := hl
      rw [chain_ranges_of_terminal g label hterm fuel item_ranges,
        chain_ranges_of_terminal g label hterm (n + 1) item_ranges]
    | some map =>
      obtain ⟨fuel', rfl⟩ : ∃ k, fuel = k + 1 := ⟨fuel - 1, by omega⟩
      have hiter : Terminal g (iter_label g n map.to_label) := by
        rwa [iter_label_succ_some g n label map hl] at h
      show chain_ranges g (fuel' + 1) label item_ranges = chain_ranges g (n + 1) label item_ranges
      unfold chain_ranges
      rw [hl]
      exact ih map.to_label hiter fuel' (by omega) _

lemma exists_terminal_of_acyclic (g : List (String × AlmanacMap))
    (hacyc : AcyclicFrom g "seed") :
    ∃ n, n ≤ g.length ∧ Terminal g (iter_label g n "seed") := by
  by_contra hno
  push_neg at hno
  have hmaps : ∀ k : Fin (g.length + 1),
      iter_label g (k : Nat) "seed" ∈ (g.map Prod.fst).toFinset := by
    intro k
    rw [List.mem_toFinset]
    apply lookup_map_mem_keys
    exact hno (k : Nat) (by omega)
  have hcard : ((g.map Prod.fst).toFinset).card
      < (Finset.univ : Finset (Fin (g.length + 1))).card := by
    have h1 : ((g.map Prod.fst).toFinset).card ≤ (g.map Prod.fst).length :=
      List.toFinset_card_le _
    rw [List.length_map] at h1
    rw [Finset.card_univ, Fintype.card_fin]
    omega
  obtain ⟨a, -, b, -, hab, heq⟩ :=
    Finset.exists_ne_map_eq_of_card_lt_of_maps_to hcard (fun k _ => hmaps k)
  rcases Ne.lt_or_lt hab with hlt | hlt
  · have hterm := hacyc (b : Nat) (by omega) (a : Nat) (by exact_mod_cast hlt) heq
    exact hno (a : Nat) (by omega) hterm
  · have hterm := hacyc (a : Nat) (by omega) (b : Nat) (by exact_mod_cast hlt) heq.symm
    exact hno (b : Nat) (by omega) hterm

/-- C7: when the stage graph followed from the root label `"seed"` is acyclic,
the chain walk used by `solve_problem_1` and `solve_problem_2` terminates:
there is a step count `n` whose label has no entry in the stage graph, no
earlier label is terminal (the walk stops exactly there), and from that point
on extra fuel never changes the outcome of either walk. -/
theorem chain_walk_terminates (g : List (String × AlmanacMap))
    (hacyc : AcyclicFrom g "seed") :
    ∃ n, Terminal g (iter_label g n "seed") ∧
      (∀ m, m < n → ¬ Terminal g (iter_label g m "seed")) ∧
      ∀ fuel, n ≤ fuel →
        (∀ items, chain_elems g fuel "seed" items = chain_elems g n "seed" items) ∧
        (∀ item_ranges,
          chain_ranges g fuel "seed" item_ranges = chain_ranges g n "seed" item_ranges) := by
  obtain ⟨n0, -, hterm0⟩ := exists_terminal_of_acyclic g hacyc
  have hex : ∃ n, Terminal g (iter_label g n "seed") := ⟨n0, hterm0⟩
  refine ⟨Nat.find hex, Nat.find_spec hex, fun m hm => Nat.find_min hex hm, fun fuel hf => ?_⟩
  exact ⟨fun items =>
      chain_elems_stable g (Nat.find hex) "seed" (Nat.find_spec hex) fuel hf items,
    fun item_ranges =>
      chain_ranges_stable g (Nat.find hex) "seed" (Nat.find_spec hex) fuel hf item_ranges⟩

/-- C9: with enough fuel to complete the chain walk (the label after `n` steps
is terminal and `fuel ≥ n`), `solve_problem_1` is `⊤` (Rust `None`) exactly
when the final scalar set is empty and otherwise returns its minimum element,
and `solve_problem_2` is `none` exactly when the final interval collection is
empty and otherwise returns the minimum `start` value over it. -/
theorem solve_problems_extract_min (almanac : Almanac) (n : Nat)
    (hterm : Terminal almanac.maps_by_source (iter_label almanac.maps_by_source n "seed"))
    (fuel : Nat) (hfuel : n ≤ fuel) :
    (solve_problem_1 fuel almanac = ⊤ ↔
      chain_elems almanac.maps_by_source fuel "seed" almanac.seeds = ∅) ∧
    (∀ v : Nat, solve_problem_1 fuel almanac = v →
      v ∈ chain_elems almanac.maps_by_source fuel "seed" almanac.seeds ∧
      ∀ x ∈ chain_elems almanac.maps_by_source fuel "seed" almanac.seeds, v ≤ x) ∧
    (solve_problem_2 fuel almanac = none ↔
      chain_ranges almanac.maps_by_source fuel "seed" almanac.seeds_as_ranges = []) ∧
    (∀ v : Nat, solve_problem_2 fuel almanac = some v →
      (∃ range ∈ chain_ranges almanac.maps_by_source fuel "seed" almanac.seeds_as_ranges,
        range.start = v) ∧
      ∀ range ∈ chain_ranges almanac.maps_by_source fuel "seed" almanac.seeds_as_ranges,
        v ≤ range.start) := by
  refine ⟨Finset.min_eq_top, ?_, ?_, ?_⟩
  · intro v hv
    have hv' : (chain_elems almanac.maps_by_source fuel "seed" almanac.seeds).min = v := hv
    refine ⟨Finset.mem_of_min hv', fun x hx => ?_⟩
    have hle := Finset.min_le hx
    rw [hv'] at hle
    exact WithTop.coe_le_coe.mp hle
  · have h0 : solve_problem_2 fuel almanac =
        ((chain_ranges almanac.maps_by_source fuel "seed" almanac.seeds_as_ranges).map
          AlmanacRange.start).min? := rfl
    rw [h0, List.min?_eq_none_iff, List.map_eq_nil_iff]
  · intro v hv
    have hv' : ((chain_ranges almanac.maps_by_source fuel "seed" almanac.seeds_as_ranges).map
        AlmanacRange.start).min? = some v := hv
    rw [List.min?_eq_some_iff'] at hv'
    obtain ⟨hmem, hle⟩ := hv'
    constructor
    · obtain ⟨range, hrange, hstart⟩ := List.mem_map.mp hmem
      exact ⟨range, hrange, hstart⟩
    · intro range hrange
      exact hle _ (List.mem_map.mpr ⟨range, hrange, rfl⟩)

/-- Witness instantiating `apply_range_mapping_overlap_spec` at interval
`{start := 8, length := 10}` and rule `{from_start := 10, to_start := 20, length := 5}`. -/
theorem apply_range_mapping_overlap_spec_witness :
    (0 : Nat) < 10 ∧ (0 : Nat) < 5 ∧
    ((apply_range_mapping ⟨8, 10⟩ ⟨10, 20, 5⟩ = none ↔
        range_span ⟨8, 10⟩ ∩ source_span ⟨10, 20, 5⟩ = ∅) ∧
      (∀ m, apply_range_mapping ⟨8, 10⟩ ⟨10, 20, 5⟩ = some m →
        m.length = (range_span ⟨8, 10⟩ ∩ source_span ⟨10, 20, 5⟩).card ∧
        m.start = max 8 10 - 10 + 20)) :=
  ⟨by decide, by decide,
    apply_range_mapping_overlap_spec ⟨8, 10⟩ ⟨10, 20, 5⟩ (by decide) (by decide)⟩

/-- Witness instantiating `subtract_range_remainder_spec` at source
`{start := 8, length := 10}` and subtracted `{start := 10, length := 5}`. -/
theorem subtract_range_remainder_spec_witness :
    (range_span ⟨8, 10⟩ ∩ range_span ⟨10, 5⟩).Nonempty ∧
    (opt_span (subtract_range ⟨8, 10⟩ ⟨10, 5⟩).1
        = (range_span ⟨8, 10⟩).filter (fun x => x < 10) ∧
      opt_span (subtract_range ⟨8, 10⟩ ⟨10, 5⟩).2
        = (range_span ⟨8, 10⟩).filter (fun x => 10 + 5 ≤ x) ∧
      ((subtract_range ⟨8, 10⟩ ⟨10, 5⟩).1 = none ↔ 10 ≤ 8) ∧
      ((subtract_range ⟨8, 10⟩ ⟨10, 5⟩).2 = none ↔ 8 + 10 ≤ 10 + 5)) :=
  ⟨by decide, subtract_range_remainder_spec ⟨8, 10⟩ ⟨10, 5⟩ (by decide)⟩

/-- Witness instantiating `mapping_partitions_interval` at the spec's concrete
scenario: rule `{from_start := 10, to_start := 20, length := 5}` and interval
`{start := 8, length := 10}`, together with the concrete mapped result
`{start := 20, length := 5}` and remainders `{8, 2}` and `{15, 3}`. -/
theorem mapping_partitions_interval_witness :
    (range_span ⟨8, 10⟩ ∩ source_span ⟨10, 20, 5⟩).Nonempty ∧
    (∃ m, apply_range_mapping ⟨8, 10⟩ ⟨10, 20, 5⟩ = some m ∧
      range_span (back_translate m ⟨10, 20, 5⟩)
          ∪ opt_span (subtract_range ⟨8, 10⟩ ⟨10, 5⟩).1
          ∪ opt_span (subtract_range ⟨8, 10⟩ ⟨10, 5⟩).2 = range_span ⟨8, 10⟩ ∧
      Disjoint (range_span (back_translate m ⟨10, 20, 5⟩))
        (opt_span (subtract_range ⟨8, 10⟩ ⟨10, 5⟩).1) ∧
      Disjoint (range_span (back_translate m ⟨10, 20, 5⟩))
        (opt_span (subtract_range ⟨8, 10⟩ ⟨10, 5⟩).2) ∧
      Disjoint (opt_span (subtract_range ⟨8, 10⟩ ⟨10, 5⟩).1)
        (opt_span (subtract_range ⟨8, 10⟩ ⟨10, 5⟩).2)) ∧
    apply_range_mapping ⟨8, 10⟩ ⟨10, 20, 5⟩ = some ⟨20, 5⟩ ∧
    subtract_range ⟨8, 10⟩ ⟨10, 5⟩ = (some ⟨8, 2⟩, some ⟨15, 3⟩) :=
  ⟨by decide, mapping_partitions_interval ⟨8, 10⟩ ⟨10, 20, 5⟩ (by decide),
    by decide, by decide⟩

/-- Witness instantiating `unmapped_intervals_pass_through` on a one-rule map
and the interval `{start := 100, length := 3}`, which overlaps no rule span. -/
theorem unmapped_intervals_pass_through_witness :
    (∀ r ∈ ([⟨10, 20, 5⟩] : List AlmanacRangeMapping), 0 < r.length) ∧
    ((∀ i ∈ ([⟨100, 3⟩] : List AlmanacRange), 0 < i.length →
        (∀ r ∈ ([⟨10, 20, 5⟩] : List AlmanacRangeMapping),
          range_span i ∩ source_span r = ∅) →
        i ∈ apply_map_to_ranges [⟨100, 3⟩] ⟨"soil", [⟨10, 20, 5⟩]⟩) ∧
      (∀ u ∈ (apply_mappings [⟨10, 20, 5⟩] [⟨100, 3⟩]).2,
        u ∈ apply_map_to_ranges [⟨100, 3⟩] ⟨"soil", [⟨10, 20, 5⟩]⟩)) :=
  ⟨by decide,
    unmapped_intervals_pass_through ⟨"soil", [⟨10, 20, 5⟩]⟩ [⟨100, 3⟩] (by decide)⟩

/-- Witness instantiating `apply_map_to_ranges_conserves_length` on a one-rule
map and the interval `{start := 100, length := 3}`. -/
theorem apply_map_to_ranges_conserves_length_witness :
    (∀ r ∈ ([⟨10, 20, 5⟩] : List AlmanacRangeMapping), 0 < r.length) ∧
    (∀ i ∈ ([⟨100, 3⟩] : List AlmanacRange), 0 < i.length) ∧
    (sum_lengths (apply_map_to_ranges [⟨100, 3⟩] ⟨"soil", [⟨10, 20, 5⟩]⟩)
        = sum_lengths [⟨100, 3⟩] ∧
      ∀ g fuel label,
        sum_lengths (chain_ranges g fuel label [⟨100, 3⟩]) ≤ sum_lengths [⟨100, 3⟩]) :=
  ⟨by decide, by decide,
    apply_map_to_ranges_conserves_length ⟨"soil", [⟨10, 20, 5⟩]⟩ [⟨100, 3⟩]
      (by decide) (by decide)⟩

/-- Witness instantiating `chain_walk_terminates` on the one-stage graph
`sample_graph` (whose walk is `"seed" → "soil"`, then terminal). -/
theorem chain_walk_terminates_witness :
    AcyclicFrom sample_graph "seed" ∧
    (∃ n, Terminal sample_graph (iter_label sample_graph n "seed") ∧
      (∀ m, m < n → ¬ Terminal sample_graph (iter_label sample_graph m "seed")) ∧
      ∀ fuel, n ≤ fuel →
        (∀ items, chain_elems sample_graph fuel "seed" items
          = chain_elems sample_graph n "seed" items) ∧
        (∀ item_ranges, chain_ranges sample_graph fuel "seed" item_ranges
          = chain_ranges sample_graph n "seed" item_ranges)) :=
  ⟨by decide, chain_walk_terminates sample_graph (by decide)⟩

/-- Witness instantiating `no_zero_length_interval_constructed` on a one-rule
map and the interval `{start := 8, length := 10}`. -/
theorem no_zero_length_interval_constructed_witness :
    (∀ r ∈ ([⟨10, 20, 5⟩] : List AlmanacRangeMapping), 0 < r.length) ∧
    (∀ i ∈ ([⟨8, 10⟩] : List AlmanacRange), 0 < i.length) ∧
    ((∀ i r, 0 < AlmanacRange.length i → 0 < AlmanacRangeMapping.length r →
        ∀ m, apply_range_mapping i r = some m → 0 < m.length) ∧
      (∀ s c a, (subtract_range s c).1 = some a → 0 < a.length) ∧
      (∀ s c a, (subtract_range s c).2 = some a → 0 < a.length) ∧
      (∀ o ∈ apply_map_to_ranges [⟨8, 10⟩] ⟨"soil", [⟨10, 20, 5⟩]⟩, 0 < o.length)) :=
  ⟨by decide, by decide,
    no_zero_length_interval_constructed ⟨"soil", [⟨10, 20, 5⟩]⟩ [⟨8, 10⟩]
      (by decide) (by decide)⟩

/-- Witness instantiating `solve_problems_extract_min` on `sample_almanac`
(empty stage graph, so zero steps and zero fuel complete the walk). -/
theorem solve_problems_extract_min_witness :
    Terminal sample_almanac.maps_by_source
      (iter_label sample_almanac.maps_by_source 0 "seed") ∧
    (0 : Nat) ≤ 0 ∧
    ((solve_problem_1 0 sample_almanac = ⊤ ↔
        chain_elems sample_almanac.maps_by_source 0 "seed" sample_almanac.seeds = ∅) ∧
      (∀ v : Nat, solve_problem_1 0 sample_almanac = v →
        v ∈ chain_elems sample_almanac.maps_by_source 0 "seed" sample_almanac.seeds ∧
        ∀ x ∈ chain_elems sample_almanac.maps_by_source 0 "seed" sample_almanac.seeds,
          v ≤ x) ∧
      (solve_problem_2 0 sample_almanac = none ↔
        chain_ranges sample_almanac.maps_by_source 0 "seed"
          sample_almanac.seeds_as_ranges = []) ∧
      (∀ v : Nat, solve_problem_2 0 sample_almanac = some v →
        (∃ range ∈ chain_ranges sample_almanac.maps_by_source 0 "seed"
            sample_almanac.seeds_as_ranges, range.start = v) ∧
        ∀ range ∈ chain_ranges sample_almanac.maps_by_source 0 "seed"
            sample_almanac.seeds_as_ranges, v ≤ range.start)) :=
  ⟨by decide, by decide, solve_problems_extract_min sample_almanac 0 (by decide) 0 (by decide)⟩
